import Mathlib

/-!
# Formal model of the mallob distributed scheduler core

This file gives a shallow embedding, in Lean 4, of the parts of the mallob
worker/balancer code base that the specification claims talk about:

* `Event`/`EventMap` and their `merge`, `serialize`, `deserialize`
  (src/balancing/event_driven_balancer.hpp);
* `Job::getDemand` (src/app/job.cpp);
* `Worker::updateVolume` (src/worker.cpp);
* `Worker::handleFindNode` and `Worker::maxJobHops` (src/worker.cpp, src/worker.h);
* `Worker::handleAcceptBecomeChild` (src/worker.cpp);
* the bisection rounding loop of the cutoff-priority balancer
  (src/balancing/cutoff_priority_balancer.cpp);
* `SatClauseCommunicator::merge` and `shareCollectedClauses`
  (src/app/sat_clause_communicator.cpp).

Modelling conventions:

* C `int` values are modelled as `Int` (overflow is not at issue in any claim);
  C++ integer division, which truncates towards zero, is `Int.tdiv`.
* C `float`/`double` values are modelled as exact rationals `Rat`; IEEE rounding
  is abstracted away (no claim depends on rounding error).  The single bit-level
  float field (`Event.priority`) is modelled by its exact value, so that Lean
  equality corresponds to bit-pattern equality of the serialized form.
* `std::map<int, Event>` is modelled as an association list with strictly
  ascending keys, exactly the order in which the C++ code iterates over it.
* message sends (`MyMpi::isend`) are modelled by returning a list of messages;
  the state-passing style replaces in-place mutation.
* `assert(...)` failures are modelled as an `Except.error` outcome: the C++
  process aborts there and performs none of the subsequent effects.
-/

namespace Mallob

/-! ## Events and event maps (src/balancing/event_driven_balancer.hpp)

`struct Event { int jobId; int epoch; int demand; float priority; }`.
The `priority` float is modelled by its exact value (see the file comment). -/

structure Event where
  jobId : Int
  epoch : Int
  demand : Int
  priority : Int
deriving DecidableEq, Repr

/-- `Event::dominates(other)`: `return epoch > other.epoch;`. -/
def Event.dominates (a b : Event) : Bool :=
  a.epoch > b.epoch

/-- An event map is the association list `(key, event)` in the (ascending-key)
iteration order of the C++ `std::map<int, Event> _map`. -/
abbrev EventMap := List (Int × Event)

/-- The `std::map` representation invariant: keys strictly ascending. -/
abbrev KeysSorted (m : EventMap) : Prop :=
  m.Pairwise (fun a b => a.1 < b.1)

/-- Class invariant of `EventMap`: every entry is stored under its own job id
(every C++ write is of the form `_map[ev.jobId] = ev`). -/
abbrev KeyMatchesJobId (m : EventMap) : Prop :=
  ∀ p ∈ m, p.2.jobId = p.1

/-- Lookup, as `_map.count`/`_map.at` on the sorted association list. -/
def findEv : EventMap → Int → Option Event
  | [], _ => none
  | (k, e) :: t, k' => if k = k' then some e else findEv t k'

/-- The per-key decision of `EventMap::merge`:
`newMap[pair.first] = (pair.second.dominates(otherPair.second) ? pair.second : otherPair.second)`. -/
def pickEv (a b : Event) : Event :=
  if a.dominates b then a else b

/-- `EventMap::merge(other)`: simultaneous ascending-key sweep over both maps;
on a shared key the dominating (strictly larger-epoch) entry is kept, with the
right-hand operand winning ties; unshared keys are copied. -/
def mergeEv : EventMap → EventMap → EventMap
  | [], l => l
  | p :: t, [] => p :: t
  | (k₁, e₁) :: t₁, (k₂, e₂) :: t₂ =>
    if k₁ = k₂ then
      (k₁, pickEv e₁ e₂) :: mergeEv t₁ t₂
    else if k₁ < k₂ then
      (k₁, e₁) :: mergeEv t₁ ((k₂, e₂) :: t₂)
    else
      (k₂, e₂) :: mergeEv ((k₁, e₁) :: t₁) t₂
termination_by a b => a.length + b.length

/-! ### Serialization (src/balancing/event_driven_balancer.hpp, lines 41-67)

Bytes are modelled as natural numbers; each `int` (and the 4 bytes of the
`float` priority) is written little-endian in two's complement, matching the
`memcpy` of a 32-bit value. `_size_per_event = 3*sizeof(int)+sizeof(float) = 16`. -/

/-- Little-endian 4-byte two's-complement encoding of a 32-bit `int`. -/
def encInt32 (i : Int) : List Nat :=
  let w := (i % 4294967296).toNat
  [w % 256, w / 256 % 256, w / 65536 % 256, w / 16777216 % 256]

/-- Decoding of a little-endian 4-byte two's-complement 32-bit `int`
(the `memcpy` back into an `int`). -/
def decInt32 : List Nat → Int
  | b0 :: b1 :: b2 :: b3 :: _ =>
    let w : Nat := b0 + 256 * b1 + 65536 * b2 + 16777216 * b3
    if w < 2147483648 then (w : Int) else (w : Int) - 4294967296
  | _ => 0

/-- The 16-byte wire format of one event: jobId, epoch, demand, priority. -/
def serializeEvent (e : Event) : List Nat :=
  encInt32 e.jobId ++ encInt32 e.epoch ++ encInt32 e.demand ++ encInt32 e.priority

/-- `EventMap::serialize()`: the events in ascending key order, 16 bytes each. -/
def serializeEv (m : EventMap) : List Nat :=
  (m.map (fun p => serializeEvent p.2)).flatten

/-- `_map[newEvent.jobId] = newEvent` on the sorted association list
(`std::map::operator[]` insert-or-assign). -/
def insertEv : EventMap → Event → EventMap
  | [], e => [(e.jobId, e)]
  | (k, x) :: t, e =>
    if e.jobId < k then (e.jobId, e) :: (k, x) :: t
    else if e.jobId = k then (e.jobId, e) :: t
    else (k, x) :: insertEv t e

/-- One 16-byte block parsed back into an event (fields read at byte offsets
0, 4, 8, 12 exactly as the deserialization loop does). -/
def readEvent : List Nat → Event
  | b0 :: b1 :: b2 :: b3 :: b4 :: b5 :: b6 :: b7 ::
    b8 :: b9 :: b10 :: b11 :: b12 :: b13 :: b14 :: b15 :: _ =>
    { jobId := decInt32 [b0, b1, b2, b3]
      epoch := decInt32 [b4, b5, b6, b7]
      demand := decInt32 [b8, b9, b10, b11]
      priority := decInt32 [b12, b13, b14, b15] }
  | _ => { jobId := 0, epoch := 0, demand := 0, priority := 0 }

/-- The deserialization loop: `numEvents = packed.size() / 16` events are read
front to back, 16 bytes each (a trailing fragment of fewer than 16 bytes is
never read, matching the integer division). -/
def parseEvents : List Nat → List Event
  | b0 :: b1 :: b2 :: b3 :: b4 :: b5 :: b6 :: b7 ::
    b8 :: b9 :: b10 :: b11 :: b12 :: b13 :: b14 :: b15 :: rest =>
    readEvent [b0, b1, b2, b3, b4, b5, b6, b7,
               b8, b9, b10, b11, b12, b13, b14, b15] :: parseEvents rest
  | _ => []

/-- `EventMap::deserialize(packed)`: clear the map; a payload of at most
`sizeof(int)` bytes yields the empty map; otherwise every 16-byte block is
parsed and inserted via `_map[newEvent.jobId] = newEvent`. -/
def deserializeEv (packed : List Nat) : EventMap :=
  if packed.length ≤ 4 then []
  else (parseEvents packed).foldl insertEv []

/-- Field ranges under which the 32-bit `memcpy` round trip is exact. -/
abbrev EventInRange (e : Event) : Prop :=
  (-2147483648 ≤ e.jobId ∧ e.jobId < 2147483648) ∧
  (-2147483648 ≤ e.epoch ∧ e.epoch < 2147483648) ∧
  (-2147483648 ≤ e.demand ∧ e.demand < 2147483648) ∧
  (-2147483648 ≤ e.priority ∧ e.priority < 2147483648)

abbrev MapInRange (m : EventMap) : Prop :=
  ∀ p ∈ m, EventInRange p.2

/-! ### Lookup / merge lemmas -/

theorem findEv_eq_none {m : EventMap} {k : Int} (h : ∀ p ∈ m, k < p.1) :
    findEv m k = none := by
  induction m with
  | nil => rfl
  | cons p t ih =>
    obtain ⟨kp, ep⟩ := p
    have hk := h (kp, ep) (by simp)
    simp only [findEv]
    rw [if_neg (by simp at hk; omega)]
    exact ih (fun q hq => h q (by simp [hq]))

theorem exists_key_of_findEv {m : EventMap} {k : Int} {e : Event}
    (h : findEv m k = some e) : ∃ p ∈ m, p.1 = k ∧ p.2 = e := by
  induction m with
  | nil => simp [findEv] at h
  | cons p t ih =>
    obtain ⟨kp, ep⟩ := p
    simp only [findEv] at h
    by_cases hk : kp = k
    · rw [if_pos hk] at h
      exact ⟨(kp, ep), by simp, hk, by simpa using h⟩
    · rw [if_neg hk] at h
      obtain ⟨q, hq, hqs⟩ := ih h
      exact ⟨q, by simp [hq], hqs⟩

theorem findEv_head_lt {p : Int × Event} {t : EventMap} (hs : KeysSorted (p :: t))
    {k : Int} (hk : k ≤ p.1) : findEv t k = none :=
  findEv_eq_none (fun q hq => lt_of_le_of_lt hk ((List.pairwise_cons.mp hs).1 q hq))

/-- Keys of the merged map come from one of the operands. -/
theorem key_of_mem_mergeEv :
    ∀ (a b : EventMap), ∀ p ∈ mergeEv a b,
      (∃ q ∈ a, q.1 = p.1) ∨ ∃ q ∈ b, q.1 = p.1 := by
  intro a b
  induction a, b using mergeEv.induct with
  | case1 l => intro p hp; rw [mergeEv] at hp; right; exact ⟨p, hp, rfl⟩
  | case2 q t => intro p hp; rw [mergeEv] at hp; left; exact ⟨p, hp, rfl⟩
  | case3 e₁ t₁ k₂ e₂ t₂ ih =>
    intro p hp
    rw [mergeEv, if_pos rfl] at hp
    rcases List.mem_cons.mp hp with h | h
    · left; exact ⟨(k₂, e₁), by simp, by simp [h]⟩
    · rcases ih p h with ⟨q, hq, hqe⟩ | ⟨q, hq, hqe⟩
      · exact Or.inl ⟨q, by simp [hq], hqe⟩
      · exact Or.inr ⟨q, by simp [hq], hqe⟩
  | case4 k₁ e₁ t₁ k₂ e₂ t₂ hne hlt ih =>
    intro p hp
    rw [mergeEv, if_neg hne, if_pos hlt] at hp
    rcases List.mem_cons.mp hp with h | h
    · left; exact ⟨(k₁, e₁), by simp, by simp [h]⟩
    · rcases ih p h with ⟨q, hq, hqe⟩ | ⟨q, hq, hqe⟩
      · exact Or.inl ⟨q, by simp [hq], hqe⟩
      · exact Or.inr ⟨q, hq, hqe⟩
  | case5 k₁ e₁ t₁ k₂ e₂ t₂ hne hnlt ih =>
    intro p hp
    rw [mergeEv, if_neg hne, if_neg hnlt] at hp
    rcases List.mem_cons.mp hp with h | h
    · right; exact ⟨(k₂, e₂), by simp, by simp [h]⟩
    · rcases ih p h with ⟨q, hq, hqe⟩ | ⟨q, hq, hqe⟩
      · exact Or.inl ⟨q, hq, hqe⟩
      · exact Or.inr ⟨q, by simp [hq], hqe⟩

/-- Merging two sorted maps yields a sorted map. -/
theorem mergeEv_sorted :
    ∀ {a b : EventMap}, KeysSorted a → KeysSorted b → KeysSorted (mergeEv a b) := by
  intro a b
  induction a, b using mergeEv.induct with
  | case1 l => intro _ hb; simpa [mergeEv] using hb
  | case2 q t => intro ha _; simpa [mergeEv] using ha
  | case3 e₁ t₁ k₂ e₂ t₂ ih =>
    intro ha hb
    have ha' := List.pairwise_cons.mp ha
    have hb' := List.pairwise_cons.mp hb
    rw [mergeEv, if_pos rfl]
    refine List.pairwise_cons.mpr ⟨?_, ih ha'.2 hb'.2⟩
    intro p hp
    show k₂ < p.1
    rcases key_of_mem_mergeEv _ _ p hp with ⟨q, hq, hqe⟩ | ⟨q, hq, hqe⟩
    · have h1 : k₂ < q.1 := ha'.1 q hq
      omega
    · have h1 : k₂ < q.1 := hb'.1 q hq
      omega
  | case4 k₁ e₁ t₁ k₂ e₂ t₂ hne hlt ih =>
    intro ha hb
    have ha' := List.pairwise_cons.mp ha
    rw [mergeEv, if_neg hne, if_pos hlt]
    refine List.pairwise_cons.mpr ⟨?_, ih ha'.2 hb⟩
    intro p hp
    show k₁ < p.1
    rcases key_of_mem_mergeEv _ _ p hp with ⟨q, hq, hqe⟩ | ⟨q, hq, hqe⟩
    · have h1 : k₁ < q.1 := ha'.1 q hq
      omega
    · rcases List.mem_cons.mp hq with h | h
      · have h1 : k₂ = p.1 := by rw [h] at hqe; exact hqe
        omega
      · have h1 : k₂ < q.1 := (List.pairwise_cons.mp hb).1 q h
        omega
  | case5 k₁ e₁ t₁ k₂ e₂ t₂ hne hnlt ih =>
    intro ha hb
    have hb' := List.pairwise_cons.mp hb
    rw [mergeEv, if_neg hne, if_neg hnlt]
    refine List.pairwise_cons.mpr ⟨?_, ih ha hb'.2⟩
    intro p hp
    show k₂ < p.1
    rcases key_of_mem_mergeEv _ _ p hp with ⟨q, hq, hqe⟩ | ⟨q, hq, hqe⟩
    · rcases List.mem_cons.mp hq with h | h
      · have h1 : k₁ = p.1 := by rw [h] at hqe; exact hqe
        omega
      · have h1 : k₁ < q.1 := (List.pairwise_cons.mp ha).1 q h
        omega
    · have h1 : k₂ < q.1 := hb'.1 q hq
      omega

/-- Lifting of the per-key merge decision to optional entries. -/
def pickOpt : Option Event → Option Event → Option Event
  | none, y => y
  | some x, none => some x
  | some x, some y => some (pickEv x y)

/-- Pointwise characterization of `EventMap::merge` on sorted maps. -/
theorem findEv_mergeEv :
    ∀ {a b : EventMap}, KeysSorted a → KeysSorted b → ∀ (k : Int),
      findEv (mergeEv a b) k = pickOpt (findEv a k) (findEv b k) := by
  intro a b
  induction a, b using mergeEv.induct with
  | case1 l =>
    intro _ _ k
    rw [mergeEv]
    cases h : findEv l k <;> simp [findEv, pickOpt, h]
  | case2 q t =>
    intro _ _ k
    rw [mergeEv]
    cases h : findEv (q :: t) k <;> simp [findEv, pickOpt, h]
  | case3 e₁ t₁ k₂ e₂ t₂ ih =>
    intro ha hb k
    rw [mergeEv, if_pos rfl]
    by_cases hk : k₂ = k
    · simp only [findEv, if_pos hk]
      rfl
    · simp only [findEv, if_neg hk]
      exact ih (List.pairwise_cons.mp ha).2 (List.pairwise_cons.mp hb).2 k
  | case4 k₁ e₁ t₁ k₂ e₂ t₂ hne hlt ih =>
    intro ha hb k
    rw [mergeEv, if_neg hne, if_pos hlt]
    by_cases hk : k₁ = k
    · have hbnone : findEv ((k₂, e₂) :: t₂) k = none := by
        simp only [findEv]
        rw [if_neg (by omega)]
        exact findEv_head_lt hb (by show k ≤ k₂; omega)
      rw [hbnone]
      simp only [findEv, if_pos hk]
      rfl
    · simp only [findEv, if_neg hk]
      exact ih (List.pairwise_cons.mp ha).2 hb k
  | case5 k₁ e₁ t₁ k₂ e₂ t₂ hne hnlt ih =>
    intro ha hb k
    rw [mergeEv, if_neg hne, if_neg hnlt]
    by_cases hk : k₂ = k
    · have hanone : findEv ((k₁, e₁) :: t₁) k = none := by
        simp only [findEv]
        rw [if_neg (by omega)]
        exact findEv_head_lt ha (by show k ≤ k₁; omega)
      rw [hanone]
      simp only [findEv, if_pos hk]
      rfl
    · simp only [findEv, if_neg hk]
      exact ih ha (List.pairwise_cons.mp hb).2 k

/-- Two sorted maps with the same lookups are equal. -/
theorem findEv_ext :
    ∀ {a b : EventMap}, KeysSorted a → KeysSorted b →
      (∀ k, findEv a k = findEv b k) → a = b := by
  intro a
  induction a with
  | nil =>
    intro b _ _ h
    cases b with
    | nil => rfl
    | cons p t =>
      obtain ⟨kp, ep⟩ := p
      have := h kp
      simp [findEv] at this
  | cons p t₁ ih =>
    intro b ha hb h
    obtain ⟨k₁, e₁⟩ := p
    cases b with
    | nil =>
      have := h k₁
      simp [findEv] at this
    | cons q t₂ =>
      obtain ⟨k₂, e₂⟩ := q
      have hkey : k₁ = k₂ := by
        rcases lt_trichotomy k₁ k₂ with hlt | heq | hgt
        · have h₁ := h k₁
          simp only [findEv, if_true] at h₁
          rw [if_neg (by omega)] at h₁
          obtain ⟨q, hq, hqk, _⟩ := exists_key_of_findEv h₁.symm
          have hq2 : k₂ < q.1 := (List.pairwise_cons.mp hb).1 q hq
          omega
        · exact heq
        · have h₂ := h k₂
          simp only [findEv, if_true] at h₂
          rw [if_neg (by omega)] at h₂
          obtain ⟨q, hq, hqk, _⟩ := exists_key_of_findEv h₂
          have hq2 : k₁ < q.1 := (List.pairwise_cons.mp ha).1 q hq
          omega
      have hev : e₁ = e₂ := by
        have h₁ := h k₁
        simp only [findEv, if_true] at h₁
        rw [if_pos hkey.symm] at h₁
        exact Option.some.inj h₁
      subst hkey
      subst hev
      have htails : ∀ k, findEv t₁ k = findEv t₂ k := by
        intro k
        by_cases hk : k₁ = k
        · subst hk
          rw [findEv_head_lt ha (le_refl _), findEv_head_lt hb (le_refl _)]
        · have := h k
          simpa only [findEv, if_neg hk] using this
      rw [ih (List.pairwise_cons.mp ha).2 (List.pairwise_cons.mp hb).2 htails]

/-- The per-key decision is associative (right-biased maximum by epoch). -/
theorem pickEv_assoc (a b c : Event) :
    pickEv (pickEv a b) c = pickEv a (pickEv b c) := by
  simp only [pickEv, Event.dominates, gt_iff_lt, decide_eq_true_eq]
  split_ifs <;> first | rfl | omega

theorem pickOpt_assoc (x y z : Option Event) :
    pickOpt (pickOpt x y) z = pickOpt x (pickOpt y z) := by
  cases x <;> cases y <;> cases z <;> simp [pickOpt, pickEv_assoc]

/-- The per-key decision is commutative as soon as equal-epoch entries coincide. -/
theorem pickEv_comm (a b : Event) (h : a.epoch = b.epoch → a = b) :
    pickEv a b = pickEv b a := by
  simp only [pickEv, Event.dominates, gt_iff_lt, decide_eq_true_eq]
  split_ifs with h₁ h₂ h₂
  · omega
  · rfl
  · rfl
  · exact (h (by omega)).symm

theorem pickEv_eq (a b : Event) :
    pickEv a b = if a.epoch > b.epoch then a else b := by
  simp [pickEv, Event.dominates]

theorem jobId_of_findEv {m : EventMap} (hw : KeyMatchesJobId m) {k : Int} {e : Event}
    (h : findEv m k = some e) : e.jobId = k := by
  obtain ⟨p, hp, hpk, hpe⟩ := exists_key_of_findEv h
  rw [← hpe, hw p hp, hpk]

theorem mergeEv_assoc_of_sorted {a b c : EventMap}
    (ha : KeysSorted a) (hb : KeysSorted b) (hc : KeysSorted c) :
    mergeEv (mergeEv a b) c = mergeEv a (mergeEv b c) := by
  apply findEv_ext (mergeEv_sorted (mergeEv_sorted ha hb) hc)
    (mergeEv_sorted ha (mergeEv_sorted hb hc))
  intro k
  rw [findEv_mergeEv (mergeEv_sorted ha hb) hc k, findEv_mergeEv ha hb k,
      findEv_mergeEv ha (mergeEv_sorted hb hc) k, findEv_mergeEv hb hc k]
  exact pickOpt_assoc _ _ _

theorem mergeEv_comm_of_agree {a b : EventMap}
    (ha : KeysSorted a) (hb : KeysSorted b)
    (hwa : KeyMatchesJobId a) (hwb : KeyMatchesJobId b)
    (hagree : ∀ k ea eb, findEv a k = some ea → findEv b k = some eb →
      ea.epoch = eb.epoch → ea.demand = eb.demand ∧ ea.priority = eb.priority) :
    mergeEv a b = mergeEv b a := by
  apply findEv_ext (mergeEv_sorted ha hb) (mergeEv_sorted hb ha)
  intro k
  rw [findEv_mergeEv ha hb k, findEv_mergeEv hb ha k]
  cases hA : findEv a k with
  | none => cases hB : findEv b k <;> simp [pickOpt]
  | some ea =>
    cases hB : findEv b k with
    | none => simp [pickOpt]
    | some eb =>
      simp only [pickOpt]
      congr 1
      apply pickEv_comm
      intro hep
      obtain ⟨hd, hp⟩ := hagree k ea eb hA hB hep
      have hja := jobId_of_findEv hwa hA
      have hjb := jobId_of_findEv hwb hB
      cases ea
      cases eb
      simp_all

/-! ### Serialization lemmas -/

theorem decInt32_encInt32 {i : Int} (h₁ : -2147483648 ≤ i) (h₂ : i < 2147483648) :
    decInt32 (encInt32 i) = i := by
  simp only [encInt32, decInt32]
  split_ifs with h <;> omega

theorem readEvent_serializeEvent {e : Event} (h : EventInRange e) :
    readEvent (serializeEvent e) = e := by
  obtain ⟨h₁, h₂, h₃, h₄⟩ := h
  have d₁ := decInt32_encInt32 h₁.1 h₁.2
  have d₂ := decInt32_encInt32 h₂.1 h₂.2
  have d₃ := decInt32_encInt32 h₃.1 h₃.2
  have d₄ := decInt32_encInt32 h₄.1 h₄.2
  simp only [encInt32] at d₁ d₂ d₃ d₄
  simp only [serializeEvent, encInt32, List.cons_append, List.nil_append, readEvent]
  rw [d₁, d₂, d₃, d₄]

theorem parseEvents_serializeEvent_append (e : Event) (rest : List Nat) :
    parseEvents (serializeEvent e ++ rest) =
      readEvent (serializeEvent e) :: parseEvents rest := by
  simp only [serializeEvent, encInt32, List.cons_append, List.nil_append, parseEvents]
  rfl

theorem parseEvents_serializeEv {m : EventMap} (hr : MapInRange m) :
    parseEvents (serializeEv m) = m.map (fun p => p.2) := by
  induction m with
  | nil => simp [serializeEv, parseEvents]
  | cons p t ih =>
    have hp : EventInRange p.2 := hr p (by simp)
    have ht : MapInRange t := fun q hq => hr q (by simp [hq])
    simp only [serializeEv, List.map_cons, List.flatten_cons] at *
    rw [parseEvents_serializeEvent_append, readEvent_serializeEvent hp, ih ht]

theorem insertEv_append_gt :
    ∀ {m : EventMap} {e : Event}, (∀ p ∈ m, p.1 < e.jobId) →
      insertEv m e = m ++ [(e.jobId, e)] := by
  intro m
  induction m with
  | nil => intro e _; rfl
  | cons q t ih =>
    intro e h
    obtain ⟨k, x⟩ := q
    have hk : k < e.jobId := h (k, x) (by simp)
    simp only [insertEv]
    rw [if_neg (by omega), if_neg (by omega), ih (fun p hp => h p (by simp [hp]))]
    simp

theorem foldl_insertEv_asc :
    ∀ (evs : List Event) (m : EventMap),
      (∀ e ∈ evs, ∀ p ∈ m, p.1 < e.jobId) →
      evs.Pairwise (fun x y => x.jobId < y.jobId) →
      evs.foldl insertEv m = m ++ evs.map (fun e => (e.jobId, e)) := by
  intro evs
  induction evs with
  | nil => intro m _ _; simp
  | cons e t ih =>
    intro m hgt hasc
    have hpc := List.pairwise_cons.mp hasc
    simp only [List.foldl_cons]
    rw [insertEv_append_gt (hgt e (by simp)), ih (m ++ [(e.jobId, e)]) ?_ hpc.2]
    · simp
    · intro x hx p hp
      rcases List.mem_append.mp hp with h | h
      · exact lt_trans (hgt e (by simp) p h) (hpc.1 x hx)
      · simp at h
        rw [h]
        exact hpc.1 x hx

theorem serializeEvent_length (e : Event) : (serializeEvent e).length = 16 := by
  simp [serializeEvent, encInt32]

/-- On a well-formed sorted map, deserialization undoes serialization. -/
theorem deserializeEv_serializeEv {m : EventMap}
    (hs : KeysSorted m) (hw : KeyMatchesJobId m) (hr : MapInRange m) :
    deserializeEv (serializeEv m) = m := by
  cases m with
  | nil => rfl
  | cons p t =>
    rw [deserializeEv]
    have hlen : ¬ (serializeEv (p :: t)).length ≤ 4 := by
      have h16 : (serializeEv (p :: t)).length = 16 + (serializeEv t).length := by
        simp [serializeEv, serializeEvent_length]
      omega
    rw [if_neg hlen, parseEvents_serializeEv hr]
    have hmap : (List.map (fun q => q.2) (p :: t)).Pairwise
        (fun x y => x.jobId < y.jobId) := by
      rw [List.pairwise_map]
      exact hs.imp_of_mem (fun ha hb h => by rw [hw _ ha, hw _ hb]; exact h)
    rw [foldl_insertEv_asc _ [] (by simp) hmap]
    rw [List.nil_append, List.map_map]
    have hid : ∀ q ∈ p :: t, ((fun e : Event => (e.jobId, e)) ∘ fun q => q.2) q = q := by
      intro q hq
      simp [Function.comp, hw q hq]
    rw [List.map_congr_left hid]
    simp

/-! ### Claims C6 and C10 -/

/-- Concrete events used by the claim witnesses. -/
def evA : Event := { jobId := 1, epoch := 4, demand := 3, priority := 10 }

def evB : Event := { jobId := 2, epoch := 1, demand := 1, priority := 20 }

def evC : Event := { jobId := 1, epoch := 7, demand := 5, priority := 11 }

def evD : Event := { jobId := 5, epoch := 3, demand := 2, priority := 9 }

/-- **C6**: the `EventMap` merge operation is commutative and associative
(`(A ⊕ B) ⊕ C = A ⊕ (B ⊕ C)` and `A ⊕ B = B ⊕ A`), and for every key present in
both operands the entry with the strictly larger epoch wins; commutativity is
proved under the map invariant (entries keyed by their own job id) and the
precondition that two entries for the same key with equal epoch agree on demand
and priority. -/
theorem C6_eventMap_merge_algebra
    (a b c : EventMap)
    (ha : KeysSorted a) (hb : KeysSorted b) (hc : KeysSorted c)
    (hwa : KeyMatchesJobId a) (hwb : KeyMatchesJobId b)
    (hagree : ∀ k ea eb, findEv a k = some ea → findEv b k = some eb →
      ea.epoch = eb.epoch → ea.demand = eb.demand ∧ ea.priority = eb.priority) :
    mergeEv (mergeEv a b) c = mergeEv a (mergeEv b c) ∧
    mergeEv a b = mergeEv b a ∧
    ∀ k ea eb, findEv a k = some ea → findEv b k = some eb →
      findEv (mergeEv a b) k = some (if ea.epoch > eb.epoch then ea else eb) := by
  refine ⟨mergeEv_assoc_of_sorted ha hb hc,
    mergeEv_comm_of_agree ha hb hwa hwb hagree, ?_⟩
  intro k ea eb hA hB
  rw [findEv_mergeEv ha hb k, hA, hB]
  simp [pickOpt, pickEv_eq]

/-- Witness for C6 at concrete maps (shared key 1 with distinct epochs). -/
theorem C6_eventMap_merge_algebra_witness :
    (KeysSorted [(1, evA)] ∧ KeysSorted [(1, evC), (2, evB)] ∧
      KeysSorted [(2, evB)] ∧ KeyMatchesJobId [(1, evA)] ∧
      KeyMatchesJobId [(1, evC), (2, evB)]) ∧
    mergeEv (mergeEv [(1, evA)] [(1, evC), (2, evB)]) [(2, evB)]
      = mergeEv [(1, evA)] (mergeEv [(1, evC), (2, evB)] [(2, evB)]) ∧
    mergeEv [(1, evA)] [(1, evC), (2, evB)]
      = mergeEv [(1, evC), (2, evB)] [(1, evA)] := by
  have hagree : ∀ k ea eb, findEv [(1, evA)] k = some ea →
      findEv [(1, evC), (2, evB)] k = some eb → ea.epoch = eb.epoch →
      ea.demand = eb.demand ∧ ea.priority = eb.priority := by
    intro k ea eb hA hB hep
    obtain ⟨p, hp, hpk, hpe⟩ := exists_key_of_findEv hA
    obtain ⟨q, hq, hqk, hqe⟩ := exists_key_of_findEv hB
    simp at hp hq
    rcases hq with hq | hq
    · rw [hp] at hpe
      rw [hq] at hqe
      rw [← hpe, ← hqe] at hep
      simp [evA, evC] at hep
    · rw [hp] at hpk
      rw [hq] at hqk
      simp at hpk hqk
      omega
  have h := C6_eventMap_merge_algebra [(1, evA)] [(1, evC), (2, evB)] [(2, evB)]
    (by decide) (by decide) (by decide) (by decide) (by decide) hagree
  exact ⟨⟨by decide, by decide, by decide, by decide, by decide⟩, h.1, h.2.1⟩

/-- **C10**: deserializing the byte vector produced by serializing an event map
yields the map back; the empty map round-trips to the empty map; and any
payload of at most `sizeof(int)` bytes deserializes to the empty map. -/
theorem C10_eventMap_serialize_roundtrip
    (m : EventMap) (hs : KeysSorted m) (hw : KeyMatchesJobId m) (hr : MapInRange m) :
    deserializeEv (serializeEv m) = m ∧
    deserializeEv (serializeEv ([] : EventMap)) = [] ∧
    ∀ packed : List Nat, packed.length ≤ 4 → deserializeEv packed = [] := by
  refine ⟨deserializeEv_serializeEv hs hw hr, rfl, ?_⟩
  intro packed hp
  rw [deserializeEv, if_pos hp]

/-- Witness for C10 at a concrete two-entry map. -/
theorem C10_eventMap_serialize_roundtrip_witness :
    (KeysSorted [(2, evB), (5, evD)] ∧ KeyMatchesJobId [(2, evB), (5, evD)] ∧
      MapInRange [(2, evB), (5, evD)]) ∧
    deserializeEv (serializeEv [(2, evB), (5, evD)]) = [(2, evB), (5, evD)] := by
  have h := C10_eventMap_serialize_roundtrip [(2, evB), (5, evD)]
    (by decide) (by decide) (by decide)
  exact ⟨⟨by decide, by decide, by decide⟩, h.1⟩


/-! ## Job states and the demand curve (src/app/job.cpp)

The state enumeration covers the states referenced by the embedded code paths
(`job.cpp` uses the plain five; `worker.cpp` additionally tests the
`INITIALIZING_TO_*`, `STANDBY`, `NONE` and `STORED` variants). -/

inductive JobState
  | jnone | stored | inactive
  | committed | initializingToCommitted
  | active | initializingToActive
  | standby
  | suspended | initializingToSuspended
  | past | initializingToPast
deriving DecidableEq, Repr

/-- Exact-arithmetic reading of `(int)std::pow(2, q)` for a nonnegative rational
exponent `q`: the largest `n` with `n ^ q.den ≤ 2 ^ q.num`, i.e. `⌊2 ^ q⌋`
(the float cast truncates towards zero and the value is positive). -/
def floorPow2 (q : Rat) : Int :=
  (Nat.findGreatest (fun n => n ^ q.den ≤ 2 ^ q.num.toNat) (2 ^ q.num.toNat) : Int)

/-- Configuration consumed by `Job::getDemand`: fleet size `N` (`_job_tree
.getCommSize()` in the newer tree layout, `commSize` here), growth period `g`,
continuous-growth flag `cg`, and maximum demand `md`. -/
structure DemandParams where
  commSize : Int
  growthPeriod : Rat
  continuousGrowth : Bool
  maxDemand : Int

/-- The `md` clamp applied after the growth formula:
`if (_max_demand > 0) demand = std::min(demand, _max_demand);`. -/
def demandClamp (p : DemandParams) (d : Int) : Int :=
  if p.maxDemand > 0 then min d p.maxDemand else d

/-- `Job::getDemand(prevVolume, elapsedTime)` (src/app/job.cpp, lines 110-145).
The discrete branch computes `(1 << (int)(⌊t/g⌋ + 1)) - 1`; the continuous
branch computes `(int)std::pow(2, t/g + 1) - 1`; both are embedded in exact
arithmetic (`elapsedTime - timeOfActivation ≥ 0` in every reachable call, so
the `Int.toNat` on the shift exponent is exact). -/
def getDemand (p : DemandParams) (state : JobState) (timeOfActivation : Rat)
    (prevVolume : Int) (elapsedTime : Rat) : Int :=
  if state = JobState.active then
    let demand :=
      if p.growthPeriod ≤ 0 then
        p.commSize
      else if timeOfActivation ≤ 0 then
        1
      else
        let numPeriods := (elapsedTime - timeOfActivation) / p.growthPeriod
        if ¬ p.continuousGrowth then
          min p.commSize (2 ^ (⌊numPeriods⌋ + 1).toNat - 1)
        else
          min p.commSize (floorPow2 (numPeriods + 1) - 1)
    demandClamp p demand
  else prevVolume

/-! ### Claim C4 -/

/-- **C4** (amended): while ACTIVE the demand is `N` (clamped) for `g ≤ 0`;
for `g > 0` it is `min(N, 2^(⌊t/g⌋+1) − 1)` in discrete mode and
`min(N, ⌊2^(t/g+1)⌋ − 1)` in continuous mode (the float-to-int cast floors the
power), clamped afterwards by the configured maximum demand when one is set;
`t < g` forces demand 1 in discrete mode (in continuous mode it does not — see
the counterexample); while not ACTIVE the demand equals the previously
reported volume. -/
theorem C4_demand_curve (p : DemandParams) (st : JobState) (act : Rat)
    (pv : Int) (tNow : Rat) (hN : 1 ≤ p.commSize) :
    (st ≠ JobState.active → getDemand p st act pv tNow = pv) ∧
    (st = JobState.active → p.growthPeriod ≤ 0 →
      getDemand p st act pv tNow = demandClamp p p.commSize) ∧
    (st = JobState.active → 0 < p.growthPeriod → 0 < act →
      p.continuousGrowth = false →
      getDemand p st act pv tNow
        = demandClamp p (min p.commSize
            (2 ^ (⌊(tNow - act) / p.growthPeriod⌋ + 1).toNat - 1))) ∧
    (st = JobState.active → 0 < p.growthPeriod → 0 < act →
      p.continuousGrowth = true →
      getDemand p st act pv tNow
        = demandClamp p (min p.commSize
            (floorPow2 ((tNow - act) / p.growthPeriod + 1) - 1))) ∧
    (st = JobState.active → 0 < p.growthPeriod → 0 < act →
      p.continuousGrowth = false → 0 ≤ tNow - act → tNow - act < p.growthPeriod →
      getDemand p st act pv tNow = 1) := by
  refine ⟨?_, ?_, ?_, ?_, ?_⟩
  · intro h
    simp only [getDemand]
    rw [if_neg h]
  · intro h hg
    simp only [getDemand]
    rw [if_pos h, if_pos hg]
  · intro h hg hact hcont
    simp only [getDemand]
    rw [if_pos h, if_neg (not_le.mpr hg), if_neg (not_le.mpr hact),
      if_pos (by simp [hcont])]
  · intro h hg hact hcont
    simp only [getDemand]
    rw [if_pos h, if_neg (not_le.mpr hg), if_neg (not_le.mpr hact),
      if_neg (by simp [hcont])]
  · intro h hg hact hcont h0 hlt
    simp only [getDemand]
    rw [if_pos h, if_neg (not_le.mpr hg), if_neg (not_le.mpr hact),
      if_pos (by simp [hcont])]
    have hfl : ⌊(tNow - act) / p.growthPeriod⌋ = 0 := by
      rw [Int.floor_eq_zero_iff]
      constructor
      · exact div_nonneg h0 hg.le
      · exact (div_lt_one hg).mpr hlt
    rw [hfl]
    have hmin : min p.commSize (2 ^ ((0:Int) + 1).toNat - 1) = 1 := by
      norm_num
      omega
    rw [hmin]
    simp only [demandClamp]
    split_ifs with hmd
    · exact min_eq_left (by omega)
    · rfl

/-- **C4 counterexample**: in continuous-growth mode with g = 4, activation at
time 1 and current time 4 (so t = 3 < g), fleet size 8 and no clamp, the code
computes demand `min(8, ⌊2^(3/4+1)⌋ − 1) = 2`, not 1 as the claim's
`t < g ⇒ demand = 1` clause requires. -/
theorem C4_demand_curve_counterexample :
    (0:Rat) < 4 ∧ (4:Rat) - 1 < 4 ∧
    getDemand ⟨8, 4, true, 0⟩ JobState.active 1 1 4 = 2 := by
  refine ⟨by norm_num, by norm_num, ?_⟩
  simp only [getDemand]
  rw [if_pos trivial, if_neg (show ¬((4:ℚ) ≤ 0) by norm_num),
    if_neg (show ¬((1:ℚ) ≤ 0) by norm_num), if_neg (not_not_intro trivial)]
  have he : ((4:ℚ) - 1) / 4 + 1 = 7 / 4 := by norm_num
  rw [he]
  have hden : ((7:ℚ) / 4).den = 4 := by
    norm_num [Rat.den_div_eq_of_coprime]
  have hnum : ((7:ℚ) / 4).num = 7 := by
    norm_num [Rat.num_div_eq_of_coprime]
  simp only [floorPow2, hden, hnum]
  norm_num [demandClamp]
  decide

/-- Witness for C4: discrete mode, g = 2, t = 1 < g gives demand 1. -/
theorem C4_demand_curve_witness :
    1 ≤ (4:Int) ∧ getDemand ⟨4, 2, false, 0⟩ JobState.active 1 1 2 = 1 := by
  refine ⟨by norm_num, ?_⟩
  have h := (C4_demand_curve ⟨4, 2, false, 0⟩ JobState.active 1 1 2
    (by norm_num)).2.2.2.2
  exact h rfl (by norm_num) (by norm_num) rfl (by norm_num) (by norm_num)

/-! ## Volume application (src/worker.cpp, Worker::updateVolume, lines 1115-1177)

The per-job local state is the part of worker/job state that `updateVolume`
reads or writes; message sends are returned as a list.  The state pass and the
message pass are independent in the source (messages are built from the fields
as they were read in each branch, and no branch reads a field another branch
wrote), so they are embedded as two functions over the same input state. -/

/-- `Job::suspend()` (src/app/job.cpp, lines 76-82) maps ACTIVE to SUSPENDED.
The `INITIALIZING_TO_ACTIVE` case is not part of the sources under src/
(`worker.cpp` belongs to a revision whose Job class is absent); modelled from
the spec: a suspending fragment leaves the active state, here to the
initializing-suspended counterpart. -/
def suspendState : JobState → JobState
  | JobState.active => JobState.suspended
  | JobState.initializingToActive => JobState.initializingToSuspended
  | s => s

/-- The two states `updateVolume` treats as running (`isNotInState({ACTIVE,
INITIALIZING_TO_ACTIVE})` is the early-out). -/
abbrev ActiveLike (st : JobState) : Prop :=
  st = JobState.active ∨ st = JobState.initializingToActive

/-- The local fragment state read and written by `Worker::updateVolume`. -/
structure VolState where
  jState : JobState
  index : Int
  hasLeftChild : Bool
  hasRightChild : Bool
  leftChildRank : Int
  rightChildRank : Int
  hasDescription : Bool
  hasCommitment : Bool
  load : Int
  lastVolume : Int
deriving DecidableEq, Repr

/-- Messages emitted by `updateVolume`: `MSG_UPDATE_VOLUME` to a child rank, or
`MSG_FIND_NODE` carrying a fresh `JobRequest` for a child index (its
destination rank is chosen by the absent `getLeftChildNodeRank`/
`getRightChildNodeRank` of the childless tree and is not modelled). -/
inductive VMsg
  | updateVolume (dest : Int) (volume : Int)
  | findNode (requestedIndex : Int)
deriving DecidableEq, Repr

/-- State effect of `Worker::updateVolume`: record the volume; if the fragment
is active, prune children whose index is at least the volume, and suspend
(with load 0) if the own index `i` satisfies `i > 0 ∧ i ≥ v`.  The source's
sequential branches are independent (pruning writes only the child pointers,
suspension only state and load, and every condition reads the entry state), so
the effect is given per field. -/
def applyVolumeState (s : VolState) (volume : Int) : VolState :=
  { jState := if ActiveLike s.jState ∧ s.index > 0 ∧ s.index ≥ volume
        then suspendState s.jState else s.jState
    index := s.index
    hasLeftChild :=
      if ActiveLike s.jState ∧ s.hasLeftChild = true ∧ 2 * s.index + 1 ≥ volume
        then false else s.hasLeftChild
    hasRightChild :=
      if ActiveLike s.jState ∧ s.hasRightChild = true ∧ 2 * s.index + 2 ≥ volume
        then false else s.hasRightChild
    leftChildRank := s.leftChildRank
    rightChildRank := s.rightChildRank
    hasDescription := s.hasDescription
    hasCommitment := s.hasCommitment
    load := if ActiveLike s.jState ∧ s.index > 0 ∧ s.index ≥ volume
        then 0 else s.load
    lastVolume := volume }

/-- Message effect of `Worker::updateVolume`: each attached child is sent the
new volume (also the ones pruned right afterwards); for a vacant child slot
with index below the volume, a `JobRequest` is minted provided the description
is held and no commitment for this job is outstanding. -/
def applyVolumeMsgs (s : VolState) (volume : Int) : List VMsg :=
  if ActiveLike s.jState then
    (if s.hasLeftChild then
      [VMsg.updateVolume s.leftChildRank volume]
    else if s.hasDescription ∧ 2 * s.index + 1 < volume ∧ ¬ s.hasCommitment then
      [VMsg.findNode (2 * s.index + 1)]
    else []) ++
    (if s.hasRightChild then
      [VMsg.updateVolume s.rightChildRank volume]
    else if s.hasDescription ∧ 2 * s.index + 2 < volume ∧ ¬ s.hasCommitment then
      [VMsg.findNode (2 * s.index + 2)]
    else [])
  else []

/-- `Worker::updateVolume(jobId, volume)`: new local state plus sent messages. -/
def applyVolume (s : VolState) (volume : Int) : VolState × List VMsg :=
  (applyVolumeState s volume, applyVolumeMsgs s volume)



theorem suspendState_not_activeLike {st : JobState} (h : ActiveLike st) :
    ¬ ActiveLike (suspendState st) := by
  rcases h with h | h <;> subst h <;> simp [suspendState, ActiveLike]

theorem applyVolumeState_idem (s : VolState) (v : Int) :
    applyVolumeState (applyVolumeState s v) v = applyVolumeState s v := by
  have hsusp := @suspendState_not_activeLike s.jState
  simp only [applyVolumeState]
  by_cases hact : ActiveLike s.jState <;>
    by_cases hsp : s.index > 0 ∧ s.index ≥ v <;>
    simp_all [ActiveLike] <;>
    exact ⟨fun _ _ => Or.inr (by omega), fun _ _ => Or.inr (by omega)⟩

/-! ### Claims C3 and C9 -/

/-- A concrete active fragment at index 1 with an attached left child of
rank 7, used by the C3 counterexample and witness. -/
def volStateEx : VolState :=
  { jState := JobState.active, index := 1, hasLeftChild := true,
    hasRightChild := false, leftChildRank := 7, rightChildRank := 0,
    hasDescription := true, hasCommitment := false, load := 1, lastVolume := 5 }

/-- **C3 counterexample**: applying volume 2 to the active fragment at index 1
prunes the left child (index 3 ≥ 2) — but the child *is* sent a message: the
`MSG_UPDATE_VOLUME` propagation happens right before the pointer is unset,
refuting the claim's "pruned ... without sending it any message". -/
theorem C3_volume_application_counterexample :
    (applyVolume volStateEx 2).1.hasLeftChild = false ∧
    (applyVolume volStateEx 2).2 = [VMsg.updateVolume 7 2] := by
  constructor <;> rfl

/-- **C3** (amended): when a worker hosting index `i` of a job applies volume
`v` while the fragment is active: if `i ≥ v` and `i > 0` the fragment is
suspended and the load set to 0; an attached child at index `2i+1 ≥ v`
(resp. `2i+2 ≥ v`) has its pointer unset, after being sent the volume update —
no dedicated prune signal exists; a vacant child slot with index below `v` gets
a fresh `JobRequest` minted provided the description is held and no commitment
is outstanding; every attached child is sent the new volume immediately; and
the volume is recorded. -/
theorem C3_volume_application (s : VolState) (v : Int)
    (hact : ActiveLike s.jState) :
    (s.index > 0 → s.index ≥ v →
      (applyVolume s v).1.jState = suspendState s.jState ∧
        (applyVolume s v).1.load = 0) ∧
    (s.hasLeftChild = true → 2 * s.index + 1 ≥ v →
      (applyVolume s v).1.hasLeftChild = false) ∧
    (s.hasRightChild = true → 2 * s.index + 2 ≥ v →
      (applyVolume s v).1.hasRightChild = false) ∧
    (s.hasLeftChild = false → s.hasDescription = true → 2 * s.index + 1 < v →
      s.hasCommitment = false →
      VMsg.findNode (2 * s.index + 1) ∈ (applyVolume s v).2) ∧
    (s.hasRightChild = false → s.hasDescription = true → 2 * s.index + 2 < v →
      s.hasCommitment = false →
      VMsg.findNode (2 * s.index + 2) ∈ (applyVolume s v).2) ∧
    (s.hasLeftChild = true →
      VMsg.updateVolume s.leftChildRank v ∈ (applyVolume s v).2) ∧
    (s.hasRightChild = true →
      VMsg.updateVolume s.rightChildRank v ∈ (applyVolume s v).2) ∧
    (applyVolume s v).1.lastVolume = v := by
  simp only [applyVolume, applyVolumeState, applyVolumeMsgs, if_pos hact]
  refine ⟨?_, ?_, ?_, ?_, ?_, ?_, ?_, trivial⟩
  · intro h1 h2
    rw [if_pos ⟨hact, h1, h2⟩, if_pos ⟨hact, h1, h2⟩]
    exact ⟨rfl, by simp⟩
  · intro h1 h2
    rw [if_pos ⟨hact, h1, h2⟩]
  · intro h1 h2
    rw [if_pos ⟨hact, h1, h2⟩]
  · intro h1 h2 h3 h4
    refine List.mem_append.mpr (Or.inl ?_)
    rw [if_neg (by simp [h1]), if_pos ⟨h2, h3, by simp [h4]⟩]
    simp
  · intro h1 h2 h3 h4
    refine List.mem_append.mpr (Or.inr ?_)
    rw [if_neg (by simp [h1]), if_pos ⟨h2, h3, by simp [h4]⟩]
    simp
  · intro h1
    refine List.mem_append.mpr (Or.inl ?_)
    rw [if_pos h1]
    simp
  · intro h1
    refine List.mem_append.mpr (Or.inr ?_)
    rw [if_pos h1]
    simp

/-- Witness for C3 at the concrete fragment: the pruned child had received the
volume update, and the pointer is unset. -/
theorem C3_volume_application_witness :
    ActiveLike volStateEx.jState ∧
    (applyVolume volStateEx 2).1.hasLeftChild = false ∧
    VMsg.updateVolume 7 2 ∈ (applyVolume volStateEx 2).2 := by
  have h := C3_volume_application volStateEx 2 (Or.inl rfl)
  exact ⟨Or.inl rfl, h.2.1 rfl (by decide), h.2.2.2.2.2.1 rfl⟩

/-- **C9**: volume application is idempotent on the local worker state (job
state, child pointers, load, last volume): applying the same volume twice in
succession yields the same local state as applying it once. -/
theorem C9_volume_application_idempotent (s : VolState) (v : Int) :
    (applyVolume (applyVolume s v).1 v).1 = (applyVolume s v).1 :=
  applyVolumeState_idem s v

/-! ## Placement: FIND_NODE handling (src/worker.cpp, Worker::handleFindNode;
src/worker.h, Worker::maxJobHops)

The adoption bookkeeping (creating the job instance, the `fullTransfer` flag,
`jobs[...]->commit`) is abstracted to the commitment flag and the
`REQUEST_BECOME_CHILD` message; the claims under scrutiny concern the
drop/bounce/adopt decision and the preemption effects. -/

/-- Fields of a `JobRequest` read by `handleFindNode`. -/
structure FNRequest where
  jobId : Int
  requestedNodeIndex : Int
  requestingNodeRank : Int
  numHops : Int
deriving DecidableEq, Repr

/-- Worker state read and written by `handleFindNode`.  `requestObsolete`
stands for `isRequestObsolete(req)` whose body is not under src/ (modelled
from the spec: a newer epoch exists for the job, or the request is stale). -/
structure FNState where
  commSize : Int
  isIdle : Bool
  hasCommitments : Bool
  requestObsolete : Bool
  reqJobKnown : Bool
  reqJobState : JobState
  hasCurrentJob : Bool
  curState : JobState
  curIsRoot : Bool
  curHasLeftChild : Bool
  curHasRightChild : Bool
  curParentRank : Int
  curId : Int
  curIndex : Int
deriving DecidableEq, Repr

/-- `Worker::maxJobHops(rootNode)` (src/worker.h, lines 165-170):
`size(comm)/2` for a root-slot request, `size(comm)*2` otherwise. -/
def maxJobHops (commSize : Int) (rootNode : Bool) : Int :=
  if rootNode then Int.tdiv commSize 2 else commSize * 2

/-- Result classification of `handleFindNode`. -/
inductive FNOutcome
  | dropObsolete
  | dropPast
  | dropHops
  | adopt (preempted : Bool)
  | bounce
deriving DecidableEq, Repr

/-- Messages `handleFindNode` emits: defection notice to the parent of the
preempted job, the commitment offer to the requester, or the forwarded
request (`bounceJobRequest` increments `numHops` before re-sending). -/
inductive FNMsg
  | workerDefecting (dest : Int) (jobId : Int) (index : Int)
  | requestBecomeChild (dest : Int) (jobId : Int)
  | findNode (numHops : Int)
deriving DecidableEq, Repr

/-- `Worker::handleFindNode` (src/worker.cpp, lines 362-452). -/
def handleFindNode (s : FNState) (req : FNRequest) :
    FNOutcome × FNState × List FNMsg :=
  if s.requestObsolete = true then
    (.dropObsolete, s, [])
  else if s.reqJobKnown = true ∧ s.reqJobState = JobState.past then
    (.dropPast, s, [])
  else
    let maxHops := maxJobHops s.commSize (req.requestedNodeIndex = 0)
    if s.isIdle = true ∧ s.hasCommitments = false then
      (.adopt false, { s with hasCommitments := true, reqJobKnown := true },
        [FNMsg.requestBecomeChild req.requestingNodeRank req.jobId])
    else if req.numHops > maxHops ∧ req.requestedNodeIndex > 0 then
      (.dropHops, s, [])
    else if req.numHops > maxHops ∧ req.requestedNodeIndex = 0 ∧
        s.hasCommitments = false then
      if (¬ (s.reqJobKnown = true ∧ ActiveLike s.reqJobState)) ∧
          s.hasCurrentJob = true ∧ ActiveLike s.curState ∧
          s.curIsRoot = false ∧ s.curHasLeftChild = false ∧
          s.curHasRightChild = false then
        (.adopt true,
          { s with
            curState := suspendState s.curState
            isIdle := true
            hasCurrentJob := false
            hasCommitments := true
            reqJobKnown := true },
          [FNMsg.workerDefecting s.curParentRank s.curId s.curIndex,
           FNMsg.requestBecomeChild req.requestingNodeRank req.jobId])
      else
        (.bounce, s, [FNMsg.findNode (req.numHops + 1)])
    else
      (.bounce, s, [FNMsg.findNode (req.numHops + 1)])

/-! ### Claim C2 -/

/-- Busy worker with an outstanding commitment, for the C2 counterexample:
a root-slot request over its hop cap arriving here is forwarded, not dropped. -/
def fnStateEx : FNState :=
  { commSize := 4, isIdle := false, hasCommitments := true,
    requestObsolete := false, reqJobKnown := false,
    reqJobState := JobState.inactive, hasCurrentJob := true,
    curState := JobState.active, curIsRoot := true,
    curHasLeftChild := false, curHasRightChild := false,
    curParentRank := 0, curId := 1, curIndex := 0 }

/-- Root-slot request with 3 hops, above the cap 4/2 = 2. -/
def fnReqEx : FNRequest :=
  { jobId := 9, requestedNodeIndex := 0, requestingNodeRank := 3, numHops := 3 }

/-- **C2 counterexample**: a root-slot request (index 0) whose hop count 3
exceeds its cap N/2 = 2, arriving at a busy worker that does not adopt it, is
*forwarded* (`bounceJobRequest`, hop count incremented to 4) — not silently
dropped as the claim states. -/
theorem C2_hop_cap_counterexample :
    fnReqEx.numHops > maxJobHops fnStateEx.commSize true ∧
    (handleFindNode fnStateEx fnReqEx).1 = FNOutcome.bounce ∧
    (handleFindNode fnStateEx fnReqEx).2.2 = [FNMsg.findNode 4] := by
  refine ⟨by decide, by rfl, by rfl⟩

/-- **C2** (amended): the hop caps are N/2 for a root-slot request and 2N for
a non-root request; a non-root request at a worker that does not adopt it is
silently dropped (no message) exactly when its hop count exceeds 2N, and is
forwarded otherwise; a root-slot request is *never* dropped for exceeding its
cap — it is either adopted (possibly via preemption) or forwarded. -/
theorem C2_hop_cap (s : FNState) (req : FNRequest)
    (hobs : s.requestObsolete = false)
    (hpast : ¬ (s.reqJobKnown = true ∧ s.reqJobState = JobState.past))
    (hnoadopt : ¬ (s.isIdle = true ∧ s.hasCommitments = false)) :
    maxJobHops s.commSize true = Int.tdiv s.commSize 2 ∧
    maxJobHops s.commSize false = s.commSize * 2 ∧
    (req.requestedNodeIndex > 0 → req.numHops > s.commSize * 2 →
      handleFindNode s req = (FNOutcome.dropHops, s, [])) ∧
    (req.requestedNodeIndex > 0 → req.numHops ≤ s.commSize * 2 →
      (handleFindNode s req).1 = FNOutcome.bounce) ∧
    (req.requestedNodeIndex = 0 →
      (handleFindNode s req).1 ≠ FNOutcome.dropHops ∧
      ((handleFindNode s req).1 = FNOutcome.adopt true ∨
        (handleFindNode s req).1 = FNOutcome.bounce)) := by
  refine ⟨rfl, rfl, ?_, ?_, ?_⟩
  · intro hidx hhops
    have hdec : decide (req.requestedNodeIndex = 0) = false := by
      simp only [decide_eq_false_iff_not]
      omega
    simp only [handleFindNode, hdec]
    rw [if_neg (by simp [hobs]), if_neg hpast, if_neg hnoadopt,
      if_pos ⟨by simpa [maxJobHops] using hhops, hidx⟩]
  · intro hidx hhops
    have hdec : decide (req.requestedNodeIndex = 0) = false := by
      simp only [decide_eq_false_iff_not]
      omega
    simp only [handleFindNode, hdec]
    rw [if_neg (by simp [hobs]), if_neg hpast, if_neg hnoadopt,
      if_neg (by
        rintro ⟨h1, -⟩
        simp only [maxJobHops, Bool.false_eq_true, if_false] at h1
        omega),
      if_neg (by rintro ⟨-, h2, -⟩; omega)]
  · intro hidx
    have hdec : decide (req.requestedNodeIndex = 0) = true := by
      simp only [decide_eq_true_eq]
      omega
    simp only [handleFindNode, hdec]
    rw [if_neg (by simp [hobs]), if_neg hpast, if_neg hnoadopt,
      if_neg (by rintro ⟨-, h2⟩; omega)]
    by_cases hh : req.numHops > maxJobHops s.commSize true ∧
        req.requestedNodeIndex = 0 ∧ s.hasCommitments = false
    · rw [if_pos hh]
      split_ifs
      · exact ⟨by simp, Or.inl rfl⟩
      · exact ⟨by simp, Or.inr rfl⟩
    · rw [if_neg hh]
      exact ⟨by simp, Or.inr rfl⟩

/-- Witness for C2: a non-root request with 9 hops at a 4-worker fleet
(cap 2N = 8) is dropped. -/
theorem C2_hop_cap_witness :
    fnStateEx.requestObsolete = false ∧
    (handleFindNode fnStateEx
      { jobId := 9, requestedNodeIndex := 2, requestingNodeRank := 3,
        numHops := 9 }).1 = FNOutcome.dropHops := by
  have h := (C2_hop_cap fnStateEx
    { jobId := 9, requestedNodeIndex := 2, requestingNodeRank := 3, numHops := 9 }
    rfl (by decide) (by decide)).2.2.1 (by decide) (by decide)
  exact ⟨rfl, by rw [h]⟩

/-! ### Claim C5 -/

/-- **C5**: a root-slot request over its N/2 hop cap, arriving at a busy
worker without pending commitments whose current job is active, non-root and
childless (and which is not already computing on the requested job), causes
that job to be suspended, a defection notice to be sent to its parent, and the
root request to be adopted; conversely, a preemptive adoption happens only
under exactly these conditions — no other condition preempts an active job
during placement. -/
theorem C5_root_preemption (s : FNState) (req : FNRequest)
    (hobs : s.requestObsolete = false)
    (hpast : ¬ (s.reqJobKnown = true ∧ s.reqJobState = JobState.past))
    (hbusy : s.isIdle = false) (hcomm : s.hasCommitments = false)
    (hidx : req.requestedNodeIndex = 0)
    (hhops : req.numHops > Int.tdiv s.commSize 2)
    (hcur : s.hasCurrentJob = true) (hact : ActiveLike s.curState)
    (hroot : s.curIsRoot = false) (hlc : s.curHasLeftChild = false)
    (hrc : s.curHasRightChild = false)
    (hnotself : ¬ (s.reqJobKnown = true ∧ ActiveLike s.reqJobState)) :
    ((handleFindNode s req).1 = FNOutcome.adopt true ∧
      (handleFindNode s req).2.1.curState = suspendState s.curState ∧
      (handleFindNode s req).2.1.isIdle = true ∧
      FNMsg.workerDefecting s.curParentRank s.curId s.curIndex
        ∈ (handleFindNode s req).2.2) ∧
    (∀ (s' : FNState) (req' : FNRequest),
      (handleFindNode s' req').1 = FNOutcome.adopt true →
      s'.isIdle = false ∧ s'.hasCommitments = false ∧
      req'.requestedNodeIndex = 0 ∧
      req'.numHops > Int.tdiv s'.commSize 2 ∧
      s'.hasCurrentJob = true ∧ ActiveLike s'.curState ∧
      s'.curIsRoot = false ∧ s'.curHasLeftChild = false ∧
      s'.curHasRightChild = false ∧
      ¬ (s'.reqJobKnown = true ∧ ActiveLike s'.reqJobState)) := by
  constructor
  · have hdec : decide (req.requestedNodeIndex = 0) = true := by
      simp only [decide_eq_true_eq]
      omega
    simp only [handleFindNode, hdec]
    rw [if_neg (by simp [hobs]), if_neg hpast,
      if_neg (by rintro ⟨h1, -⟩; rw [hbusy] at h1; exact absurd h1 (by simp)),
      if_neg (by rintro ⟨-, h2⟩; omega),
      if_pos ⟨by simpa [maxJobHops] using hhops, hidx, hcomm⟩,
      if_pos ⟨hnotself, hcur, hact, hroot, hlc, hrc⟩]
    exact ⟨rfl, rfl, rfl, by simp⟩
  · intro s' req' h
    simp only [handleFindNode] at h
    split_ifs at h with h1 h2 h3 h4 h5 h6
    all_goals try simp at h
    have hidx' : req'.requestedNodeIndex = 0 := h5.2.1
    have hcomm' : s'.hasCommitments = false := h5.2.2
    have hdec' : decide (req'.requestedNodeIndex = 0) = true := by
      simp only [decide_eq_true_eq]
      omega
    have hhops' : req'.numHops > Int.tdiv s'.commSize 2 := by
      have h5' := h5.1
      rw [hdec'] at h5'
      simpa [maxJobHops] using h5'
    have hidle' : s'.isIdle = false := by
      rcases Bool.eq_false_or_eq_true s'.isIdle with hb | hb
      · exact absurd ⟨hb, hcomm'⟩ h3
      · exact hb
    exact ⟨hidle', hcomm', hidx', hhops', h6.2.1, h6.2.2.1, h6.2.2.2.1,
      h6.2.2.2.2.1, h6.2.2.2.2.2, h6.1⟩

/-- Witness for C5: a busy uncommitted worker at N = 8 whose current job is an
active non-root leaf, receiving a root-slot request with 5 > 8/2 hops. -/
theorem C5_root_preemption_witness :
    (handleFindNode
      { commSize := 8, isIdle := false, hasCommitments := false,
        requestObsolete := false, reqJobKnown := false,
        reqJobState := JobState.inactive, hasCurrentJob := true,
        curState := JobState.active, curIsRoot := false,
        curHasLeftChild := false, curHasRightChild := false,
        curParentRank := 2, curId := 1, curIndex := 5 }
      { jobId := 9, requestedNodeIndex := 0, requestingNodeRank := 3,
        numHops := 5 }).1 = FNOutcome.adopt true ∧
    (handleFindNode
      { commSize := 8, isIdle := false, hasCommitments := false,
        requestObsolete := false, reqJobKnown := false,
        reqJobState := JobState.inactive, hasCurrentJob := true,
        curState := JobState.active, curIsRoot := false,
        curHasLeftChild := false, curHasRightChild := false,
        curParentRank := 2, curId := 1, curIndex := 5 }
      { jobId := 9, requestedNodeIndex := 0, requestingNodeRank := 3,
        numHops := 5 }).2.1.curState = JobState.suspended := by
  have h := C5_root_preemption
    { commSize := 8, isIdle := false, hasCommitments := false,
      requestObsolete := false, reqJobKnown := false,
      reqJobState := JobState.inactive, hasCurrentJob := true,
      curState := JobState.active, curIsRoot := false,
      curHasLeftChild := false, curHasRightChild := false,
      curParentRank := 2, curId := 1, curIndex := 5 }
    { jobId := 9, requestedNodeIndex := 0, requestingNodeRank := 3,
      numHops := 5 }
    rfl (by decide) rfl rfl rfl (by decide) rfl (Or.inl rfl) rfl rfl rfl
    (by decide)
  exact ⟨h.1.1, h.1.2.1.trans rfl⟩

/-! ## ACCEPT_BECOME_CHILD (src/worker.cpp, Worker::handleAcceptBecomeChild,
lines 535-564) -/

/-- Fields of the stored `JobRequest` that the handler reads. -/
structure CommitInfo where
  fullTransfer : Bool
  requestedNodeIndex : Int
deriving DecidableEq, Repr

/-- Worker state read and written by `handleAcceptBecomeChild`:
`jobCommitments`, whether the job of the signature is known, its state, and
the load. -/
structure AcceptState where
  commitments : List (Int × CommitInfo)
  jobKnown : Bool
  jobState : JobState
  load : Int
deriving DecidableEq, Repr

/-- The payload of `MSG_ACCEPT_BECOME_CHILD`: a `JobSignature`. -/
structure JobSignature where
  jobId : Int
  transferSize : Int
deriving DecidableEq, Repr

/-- Messages/effects the handler can produce: the ACK plus the posted receive
of the announced transfer size, or the direct resume. -/
inductive AcceptMsg
  | ackAcceptBecomeChild (dest : Int)
  | postReceive (dest : Int) (size : Int)
deriving DecidableEq, Repr

/-- A failed `assert(...)`: the process aborts. -/
inductive AssertFail
  | assertFailed
deriving DecidableEq, Repr

/-- `jobCommitments.count(...)` / `jobCommitments[...]` on the model map. -/
def lookupCommit : List (Int × CommitInfo) → Int → Option CommitInfo
  | [], _ => none
  | (k, c) :: t, k' => if k = k' then some c else lookupCommit t k'

/-- `jobCommitments.erase(jobId)`. -/
def eraseCommit : List (Int × CommitInfo) → Int → List (Int × CommitInfo)
  | [], _ => []
  | (k, c) :: t, k' => if k = k' then t else (k, c) :: eraseCommit t k'

/-- `Worker::handleAcceptBecomeChild(handle)`: `assert` that a commitment for
`sig.jobId` exists (a missing entry aborts); with a full transfer pending,
ACK and post the matching receive; otherwise resume the job directly (unless
it is PAST) and erase the commitment. -/
def handleAcceptBecomeChild (s : AcceptState) (sender : Int)
    (sig : JobSignature) : Except AssertFail (AcceptState × List AcceptMsg) :=
  match lookupCommit s.commitments sig.jobId with
  | none => .error .assertFailed
  | some req =>
    if req.fullTransfer = true then
      .ok (s, [AcceptMsg.ackAcceptBecomeChild sender,
               AcceptMsg.postReceive sender sig.transferSize])
    else if s.jobKnown = false then
      .error .assertFailed
    else
      let s := if s.jobState ≠ JobState.past then { s with load := 1 } else s
      .ok ({ s with commitments := eraseCommit s.commitments sig.jobId }, [])

/-! ### Claim C7 -/

/-- A busy worker with an empty commitment map. -/
def acceptStateEx : AcceptState :=
  { commitments := [], jobKnown := true, jobState := JobState.active, load := 1 }

/-- **C7 counterexample**: an ACCEPT_BECOME_CHILD for a job id with no entry
in the commitment map hits `assert(jobCommitments.count(sig.jobId))` — the
outcome is an assertion failure (process abort), not the claimed "message is
ignored and the local state left unchanged". -/
theorem C7_accept_without_commit_counterexample :
    handleAcceptBecomeChild acceptStateEx 4 { jobId := 9, transferSize := 100 }
      = .error AssertFail.assertFailed ∧
    handleAcceptBecomeChild acceptStateEx 4 { jobId := 9, transferSize := 100 }
      ≠ .ok (acceptStateEx, []) := by
  exact ⟨rfl, by simp [handleAcceptBecomeChild, lookupCommit, acceptStateEx]⟩

/-- **C7** (amended): an ACCEPT_BECOME_CHILD whose job id has no matching
entry in the commitment map fails the handler's assertion — the condition is
treated as a protocol-invariant violation and the process aborts, rather than
the message being ignored with the state unchanged. -/
theorem C7_accept_without_commit (s : AcceptState) (sender : Int)
    (sig : JobSignature)
    (h : lookupCommit s.commitments sig.jobId = none) :
    handleAcceptBecomeChild s sender sig = .error AssertFail.assertFailed := by
  simp only [handleAcceptBecomeChild, h]

/-- Witness for C7 at a concrete state with one unrelated commitment. -/
theorem C7_accept_without_commit_witness :
    lookupCommit [((3 : Int), { fullTransfer := true, requestedNodeIndex := 1 })] 9 = none ∧
    handleAcceptBecomeChild
        { commitments := [(3, { fullTransfer := true, requestedNodeIndex := 1 })],
          jobKnown := false, jobState := JobState.inactive, load := 0 }
        4 { jobId := 9, transferSize := 100 }
      = .error AssertFail.assertFailed := by
  exact ⟨rfl, C7_accept_without_commit _ 4 _ rfl⟩

/-! ## Cutoff-priority balancer: bisection rounding
(src/balancing/cutoff_priority_balancer.cpp, lines 261-379)

Sequential model of the distributed loop: the `iAllReduce` of the local
rounded sums is the sum over the global pool of fractional assignments, and
`_remainders` is the already-reduced sorted remainder sequence.  One
`roundingStep` covers `continueRoundingUntilReduction` (trial index and
utilization) followed by `continueRoundingFromReduction` (best update,
termination test, bound adjustment, application of the best rounding). -/

/-- The remainder the trial index selects: an index past the end of the
sequence selects the right-hand limit 1.0. -/
def selectedRemainder (remainders : List Rat) (idx : Int) : Rat :=
  if idx < (remainders.length : Int) then remainders.getD idx.toNat 0 else 1

/-- Rounding of one assignment (`r = it.second - (int)it.second`; assignments
are ≥ 1, so the truncating cast is the floor): down if the fractional part is
below the remainder, up otherwise. -/
def roundAssignment (remainder : Rat) (x : Rat) : Int :=
  if x - (⌊x⌋ : Rat) < remainder then ⌊x⌋ else ⌈x⌉

/-- `CutoffPriorityBalancer::getRoundedAssignments(remainderIdx, sum)`. -/
def getRoundedAssignments (remainders : List Rat) (assignments : List Rat)
    (idx : Int) : List Int :=
  assignments.map (roundAssignment (selectedRemainder remainders idx))

/-- The all-reduced utilization for a trial index
(`continueRoundingUntilReduction`: the local sum is contributed only when
`idx <= _remainders.size()`). -/
def utilization (remainders : List Rat) (assignments : List Rat)
    (idx : Int) : Rat :=
  if idx ≤ (remainders.length : Int) then
    ((getRoundedAssignments remainders assignments idx).sum : Rat)
  else 0

/-- The rounding-loop state of the balancer
(`_lower_remainder_idx`, `_upper_remainder_idx`, `_last_utilization`,
`_best_remainder_idx`, `_best_utilization_diff`, `_best_utilization`,
`_assignments`). -/
structure RoundingState where
  lower : Int
  upper : Int
  lastUtilization : Rat
  bestRemainderIdx : Int
  bestUtilizationDiff : Rat
  bestUtilization : Rat
  assignments : List Rat
deriving DecidableEq, Repr

/-- The trial index `(lower+upper)/2` (C++ `int` division truncates). -/
def trialIdx (st : RoundingState) : Int :=
  Int.tdiv (st.lower + st.upper) 2

/-- The best-result replacement test of `continueRoundingFromReduction`
(lines 327-331): the first result, or the first result within 1 of not
oversubscribing replacing an oversubscribing one, or a smaller overshoot
among oversubscribing results, or a strictly smaller absolute error among
results within the tolerance. -/
def bestReplaced (optimum : Rat) (st : RoundingState) (util : Rat) : Prop :=
  st.bestRemainderIdx = -1 ∨
  (optimum - util > -1 ∧ st.bestUtilizationDiff ≤ -1) ∨
  (optimum - util ≤ -1 ∧ st.bestUtilizationDiff ≤ -1 ∧
    optimum - util > st.bestUtilizationDiff) ∨
  (optimum - util > -1 ∧ |optimum - util| < |st.bestUtilizationDiff|)

instance (optimum : Rat) (st : RoundingState) (util : Rat) :
    Decidable (bestReplaced optimum st util) := by
  unfold bestReplaced
  infer_instance

/-- One iteration of the bisection rounding loop.  The source's sequential
mutations are independent (the best update never touches `_last_utilization`
or the bounds, and the two bound adjustments read only the entry bounds), so
the new state is given per field. -/
def roundingStep (remainders : List Rat) (optimum : Rat)
    (st : RoundingState) : Bool × RoundingState :=
  let idx := trialIdx st
  let util := utilization remainders st.assignments idx
  let best := bestReplaced optimum st util
  let newBestIdx := if best then idx else st.bestRemainderIdx
  let newBestDiff := if best then optimum - util else st.bestUtilizationDiff
  let newBestUtil := if best then util else st.bestUtilization
  if util = st.lastUtilization then
    -- Terminated: apply the best index's rounded assignments and reset.
    (true,
      { lower := st.lower
        upper := st.upper
        lastUtilization := st.lastUtilization
        bestRemainderIdx := -1
        bestUtilizationDiff := newBestDiff
        bestUtilization := newBestUtil
        assignments :=
          if remainders ≠ [] ∧ newBestIdx ≤ (remainders.length : Int) then
            (getRoundedAssignments remainders st.assignments newBestIdx).map
              (fun n => (n : Rat))
          else st.assignments })
  else
    (false,
      { lower := if st.lower < st.upper ∧ util > optimum then idx + 1
          else st.lower
        upper := if st.lower < st.upper ∧ util < optimum then idx - 1
          else st.upper
        lastUtilization := util
        bestRemainderIdx := newBestIdx
        bestUtilizationDiff := newBestDiff
        bestUtilization := newBestUtil
        assignments := st.assignments })

/-! ### Claim C1 -/

/-- Rounding state before the first iteration on the global assignment pool
`[3/2, 3/2, 3/2]` with remainder sequence `[1/2]`
(`finishRemaindersReduction` starts with bounds `[0, size]`, last utilization
0 and no best index). -/
def roundStateEx : RoundingState :=
  { lower := 0
    upper := 1
    lastUtilization := 0
    bestRemainderIdx := -1
    bestUtilizationDiff := 0
    bestUtilization := 0
    assignments := [3/2, 3/2, 3/2] }

theorem roundAssignment_ex :
    roundAssignment (selectedRemainder [(1:ℚ)/2] 0) (3/2) = 2 := by
  have hsel : selectedRemainder [(1:ℚ)/2] 0 = 1/2 := by
    simp [selectedRemainder]
  have hf : ⌊(3:ℚ)/2⌋ = 1 := by norm_num
  have hc : ⌈(3:ℚ)/2⌉ = 2 := by
    rw [Int.ceil_eq_iff]
    constructor <;> norm_num
  rw [hsel, roundAssignment, hf, if_neg (by norm_num), hc]

theorem utilization_ex :
    utilization [(1:ℚ)/2] roundStateEx.assignments 0 = 6 := by
  show utilization [(1:ℚ)/2] [3/2, 3/2, 3/2] 0 = 6
  rw [utilization, if_pos (by decide), getRoundedAssignments]
  simp only [List.map_cons, List.map_nil, roundAssignment_ex, List.sum_cons,
    List.sum_nil]
  norm_num

/-- **C1 counterexample**: with remainder sequence `[1/2]`, global assignments
`[3/2, 3/2, 3/2]` and `N·L = 1`, the first trial index is 0 and its
utilization 6 exceeds `N·L`; the next iteration's bisection bounds become
`[1, 1]`, so the next trial index is 1 — the trial index *increases* when the
utilization exceeds `N·L`, refuting the claim's "the trial index is reduced". -/
theorem C1_bisection_rounding_counterexample :
    utilization [(1:ℚ)/2] roundStateEx.assignments (trialIdx roundStateEx) > 1 ∧
    (roundingStep [(1:ℚ)/2] 1 roundStateEx).1 = false ∧
    (roundingStep [(1:ℚ)/2] 1 roundStateEx).2.lower = 1 ∧
    (roundingStep [(1:ℚ)/2] 1 roundStateEx).2.upper = 1 ∧
    trialIdx (roundingStep [(1:ℚ)/2] 1 roundStateEx).2 = 1 ∧
    trialIdx roundStateEx = 0 := by
  have hidx : trialIdx roundStateEx = 0 := by decide
  have hne6 : ¬ ((6:ℚ) = roundStateEx.lastUtilization) := by
    show ¬ ((6:ℚ) = 0)
    norm_num
  refine ⟨?_, ?_, ?_, ?_, ?_, hidx⟩
  · rw [hidx, utilization_ex]
    norm_num
  · simp only [roundingStep, hidx, utilization_ex]
    rw [if_neg hne6]
  · simp only [roundingStep, hidx, utilization_ex]
    rw [if_neg hne6]
    show (if (0:Int) < 1 ∧ (6:ℚ) > 1 then (0:Int) + 1 else 0) = 1
    rw [if_pos ⟨by norm_num, by norm_num⟩]
    decide
  · simp only [roundingStep, hidx, utilization_ex]
    rw [if_neg hne6]
    show (if (0:Int) < 1 ∧ (6:ℚ) < 1 then (0:Int) - 1 else 1) = 1
    rw [if_neg (by rintro ⟨-, h⟩; norm_num at h)]
  · simp only [roundingStep, hidx, utilization_ex]
    rw [if_neg hne6]
    show Int.tdiv ((if (0:Int) < 1 ∧ (6:ℚ) > 1 then (0:Int) + 1 else 0) +
      (if (0:Int) < 1 ∧ (6:ℚ) < 1 then (0:Int) - 1 else 1)) 2 = 1
    rw [if_pos ⟨by norm_num, by norm_num⟩,
      if_neg (by rintro ⟨-, h⟩; norm_num at h)]
    decide

/-- **C1** (amended): in the bisection rounding loop, (a) each trial rounds
up exactly the assignments whose fractional part is at least the selected
remainder; (b) an iteration terminates the loop exactly when its utilization
equals the previous iteration's; (c) while the bounds are still separated and
the loop does not terminate, utilization above `N·L` moves the LOWER bound up
to `idx+1` (the trial index increases), and utilization below `N·L` moves the
upper bound down to `idx-1`; (d) the best index is replaced exactly under the
closest-to-`N·L` rule with its oversubscription tolerance, and on termination
the best index's rounded assignments are applied (when a remainder exists and
the index is in range). -/
theorem C1_bisection_rounding (remainders : List Rat) (optimum : Rat)
    (st : RoundingState)
    (hne : utilization remainders st.assignments (trialIdx st)
      ≠ st.lastUtilization)
    (hlt : st.lower < st.upper) :
    (∀ idx : Int, getRoundedAssignments remainders st.assignments idx
      = st.assignments.map (fun x =>
          if x - (⌊x⌋ : Rat) < selectedRemainder remainders idx
          then ⌊x⌋ else ⌈x⌉)) ∧
    (∀ st' : RoundingState, (roundingStep remainders optimum st').1 = true ↔
      utilization remainders st'.assignments (trialIdx st')
        = st'.lastUtilization) ∧
    (utilization remainders st.assignments (trialIdx st) > optimum →
      (roundingStep remainders optimum st).2.lower = trialIdx st + 1 ∧
      (roundingStep remainders optimum st).2.upper = st.upper) ∧
    (utilization remainders st.assignments (trialIdx st) < optimum →
      (roundingStep remainders optimum st).2.upper = trialIdx st - 1 ∧
      (roundingStep remainders optimum st).2.lower = st.lower) ∧
    (∀ st' : RoundingState,
      (roundingStep remainders optimum st').1 = false →
      (roundingStep remainders optimum st').2.bestRemainderIdx =
        if bestReplaced optimum st'
            (utilization remainders st'.assignments (trialIdx st'))
          then trialIdx st' else st'.bestRemainderIdx) ∧
    (∀ st' : RoundingState,
      (roundingStep remainders optimum st').1 = true →
      (roundingStep remainders optimum st').2.assignments =
        (if remainders ≠ [] ∧
            (if bestReplaced optimum st'
                (utilization remainders st'.assignments (trialIdx st'))
              then trialIdx st' else st'.bestRemainderIdx)
              ≤ (remainders.length : Int)
          then (getRoundedAssignments remainders st'.assignments
            (if bestReplaced optimum st'
                (utilization remainders st'.assignments (trialIdx st'))
              then trialIdx st' else st'.bestRemainderIdx)).map
            (fun n => (n : Rat))
          else st'.assignments)) := by
  refine ⟨?_, ?_, ?_, ?_, ?_, ?_⟩
  · intro idx
    rw [getRoundedAssignments]
    refine List.map_congr_left (fun x _ => ?_)
    rw [roundAssignment]
  · intro st'
    by_cases hdone : utilization remainders st'.assignments (trialIdx st')
      = st'.lastUtilization
    · simp only [roundingStep]
      rw [if_pos hdone]
      exact iff_of_true rfl hdone
    · simp only [roundingStep]
      rw [if_neg hdone]
      exact iff_of_false (by simp) hdone
  · intro hgt
    simp only [roundingStep]
    rw [if_neg hne]
    constructor
    · rw [if_pos ⟨hlt, hgt⟩]
    · rw [if_neg (show ¬(st.lower < st.upper ∧
        utilization remainders st.assignments (trialIdx st) < optimum) from
        fun h => absurd h.2 (lt_asymm hgt))]
  · intro hltu
    simp only [roundingStep]
    rw [if_neg hne]
    constructor
    · rw [if_pos (show st.lower < st.upper ∧
        utilization remainders st.assignments (trialIdx st) < optimum from
        ⟨hlt, hltu⟩)]
    · rw [if_neg (show ¬(st.lower < st.upper ∧
        utilization remainders st.assignments (trialIdx st) > optimum) from
        fun h => absurd h.2 (lt_asymm hltu))]
  · intro st' h
    by_cases hdone : utilization remainders st'.assignments (trialIdx st')
      = st'.lastUtilization
    · simp only [roundingStep] at h
      rw [if_pos hdone] at h
      simp at h
    · simp only [roundingStep]
      rw [if_neg hdone]
  · intro st' h
    by_cases hdone : utilization remainders st'.assignments (trialIdx st')
      = st'.lastUtilization
    · simp only [roundingStep]
      rw [if_pos hdone]
    · simp only [roundingStep] at h
      rw [if_neg hdone] at h
      simp at h

theorem C1_bisection_rounding_witness :
    utilization [(1:ℚ)/2] roundStateEx.assignments (trialIdx roundStateEx)
      ≠ roundStateEx.lastUtilization ∧
    roundStateEx.lower < roundStateEx.upper ∧
    (roundingStep [(1:ℚ)/2] 1 roundStateEx).2.lower
      = trialIdx roundStateEx + 1 ∧
    (roundingStep [(1:ℚ)/2] 1 roundStateEx).2.upper = roundStateEx.upper := by
  have hidx : trialIdx roundStateEx = 0 := by decide
  have hne : utilization [(1:ℚ)/2] roundStateEx.assignments
      (trialIdx roundStateEx) ≠ roundStateEx.lastUtilization := by
    rw [hidx, utilization_ex]
    show (6:ℚ) ≠ 0
    norm_num
  have hlt : roundStateEx.lower < roundStateEx.upper := by decide
  have hgt : utilization [(1:ℚ)/2] roundStateEx.assignments
      (trialIdx roundStateEx) > 1 := by
    rw [hidx, utilization_ex]
    norm_num
  exact ⟨hne, hlt,
    (C1_bisection_rounding [(1:ℚ)/2] 1 roundStateEx hne hlt).2.2.1 hgt⟩

/-! ### Claim C8: clause-exchange buffer merging

`SatClauseCommunicator::merge` (sat_clause_communicator.cpp 196-286) merges
the collected clause buffers under a size cap; `shareCollectedClauses`
(158-178) computes `maxSize = CLAUSE_EXCHANGE_INITIAL_SIZE *
pow(CLAUSE_EXCHANGE_MULTIPLIER, passedLayers)` and calls
`merge(buffers, maxSize * CLAUSE_EXCHANGE_MULTIPLIER)`. The loop phases are
embedded with explicit fuel; `none` models a run that aborts (an
out-of-range `at()` / unbounded spin) or exhausts fuel, `some r` a run that
returns buffer `r` (early or at the end). -/

/-- `do picked = (picked+1) % modulus; while (vals[picked] == 0)`. -/
def pickNext (vals : List Int) (modulus picked : Nat) : Nat → Option Nat
  | 0 => none
  | fuel+1 =>
    let p := (picked + 1) % modulus
    if vals.getD p 0 = 0 then pickNext vals modulus p fuel else some p

/-- State of the VIP-clause phase: per-buffer read positions, per-buffer
remaining VIP counts, their running total, the result buffer, the clause
under construction, and the last picked buffer index. -/
structure MergeState where
  positions : List Nat
  nvips : List Int
  total : Int
  result : List Int
  cls : List Int
  picked : Nat

/-- VIP phase (`while (totalNumVips > 0)`): cyclically pick a buffer with
VIPs left, read one literal; on a closing 0, return early if the cap would
be exceeded, else append the clause and bump `result[0]`. -/
def vipLoop (bs : List (List Int)) (maxSize : Nat) :
    Nat → MergeState → Option (Except (List Int) MergeState)
  | 0, _ => none
  | fuel+1, st =>
    if st.total > 0 then
      match pickNext st.nvips st.nvips.length st.picked st.nvips.length with
      | none => none
      | some p =>
        match (bs.getD p []).get? (st.positions.getD p 0) with
        | none => none
        | some lit =>
          let positions := st.positions.set p (st.positions.getD p 0 + 1)
          let cls := st.cls ++ [lit]
          if lit = 0 then
            if st.result.length + cls.length > maxSize then
              some (Except.error st.result)
            else
              vipLoop bs maxSize fuel
                { positions := positions
                  nvips := st.nvips.set p (st.nvips.getD p 0 - 1)
                  total := st.total - 1
                  result := (st.result ++ cls).set 0
                    ((st.result ++ cls).getD 0 0 + 1)
                  cls := []
                  picked := p }
          else
            vipLoop bs maxSize fuel
              { positions := positions
                nvips := st.nvips
                total := st.total
                result := st.result
                cls := cls
                picked := p }
    else some (Except.ok st)

/-- One pass of `nclsoflen`/`allclsoflen` collection: for each buffer read
the count of clauses of the current length (advancing the position) or take
0, and record whether anything is left after the read. -/
def readCounts (bs : List (List Int)) (positions : List Nat) :
    List Nat × List Int × Int × Bool :=
  (List.range bs.length).foldl
    (fun acc i =>
      let pos := acc.1
      let ncls := acc.2.1
      let allcls := acc.2.2.1
      let anyLeft := acc.2.2.2
      let len := (bs.getD i []).length
      let pi := pos.getD i 0
      if pi < len then
        (pos.set i (pi + 1), ncls ++ [(bs.getD i []).getD pi 0],
          allcls + (bs.getD i []).getD pi 0, anyLeft || decide (pi + 1 < len))
      else (pos, ncls ++ [0], allcls, anyLeft))
    (positions, [], 0, false)

/-- Inner copy loop of a clause-length group (`while (allclsoflen > 0)`):
return early when `result.size() + clauseLength` would exceed the cap, else
cyclically pick a buffer with clauses of this length left and copy one. -/
def groupInner (bs : List (List Int)) (maxSize clauseLength : Nat) :
    Nat → List Nat → List Int → Int → List Int → Nat →
    Option (Except (List Int) (List Nat × List Int))
  | 0, _, _, _, _, _ => none
  | fuel+1, positions, ncls, allcls, result, picked =>
    if allcls > 0 then
      if result.length + clauseLength > maxSize then some (Except.error result)
      else
        match pickNext ncls bs.length picked bs.length with
        | none => none
        | some p =>
          let vec := bs.getD p []
          let pos := positions.getD p 0
          if pos + clauseLength ≤ vec.length then
            groupInner bs maxSize clauseLength fuel
              (positions.set p (pos + clauseLength))
              (ncls.set p (ncls.getD p 0 - 1)) (allcls - 1)
              (result ++ (vec.drop pos).take clauseLength) p
          else none
    else some (Except.ok (positions, result))

/-- Outer clause-length loop (`while (anyLeft)`): collect the per-buffer
counts, push the group header `allclsoflen` onto the result UNGUARDED, run
the inner copy loop, and continue with the next clause length while any
buffer has data left. -/
def groupLoop (bs : List (List Int)) (maxSize : Nat) :
    Nat → Nat → List Nat → List Int → Option (List Int)
  | 0, _, _, _ => none
  | fuel+1, clauseLength, positions, result =>
    match readCounts bs positions with
    | (positions', ncls, allcls, anyLeft) =>
      match groupInner bs maxSize clauseLength (allcls.toNat + 1) positions'
          ncls allcls (result ++ [allcls]) (bs.length - 1) with
      | none => none
      | some (Except.error r) => some r
      | some (Except.ok (positions'', result'')) =>
        if anyLeft then
          groupLoop bs maxSize fuel (clauseLength + 1) positions'' result''
        else some result''

/-- `SatClauseCommunicator::merge(buffers, maxSize)`: read each buffer's VIP
count, run the VIP phase from `result = [0]` and `picked = -1`, then the
clause-length groups. -/
def merge (bs : List (List Int)) (maxSize : Nat) : Option (List Int) :=
  let totalLen := (bs.map List.length).sum
  let nvips := bs.map (fun b => b.headD 0)
  let positions := bs.map (fun b => if b.length > 0 then 1 else 0)
  match vipLoop bs maxSize (totalLen + 1)
      { positions := positions
        nvips := nvips
        total := nvips.sum
        result := [0]
        cls := []
        picked := bs.length - 1 } with
  | none => none
  | some (Except.error r) => some r
  | some (Except.ok st) => groupLoop bs maxSize (totalLen + 2) 1
      st.positions st.result

/-- `maxSize = CLAUSE_EXCHANGE_INITIAL_SIZE * pow(CLAUSE_EXCHANGE_MULTIPLIER,
passedLayers)` in `shareCollectedClauses` (exact arithmetic in place of the
double-valued `std::pow`). -/
def shareMaxSize (S m passedLayers : Nat) : Nat := S * m ^ passedLayers

/-- The cap actually handed to `merge` by `shareCollectedClauses`:
`maxSize * CLAUSE_EXCHANGE_MULTIPLIER`. -/
def shareMergeCap (S m passedLayers : Nat) : Nat := shareMaxSize S m passedLayers * m

/-- **C8 counterexample**: with initial size `S = 1`, multiplier `m = 2` and
`passedLayers = 0`, a single child buffer `[0, 1, 7]` (no VIPs, one clause
of length 1 announced) merges to `[0, 1]` of size 2, exceeding the claimed
cap `S·m^d = 1`: the group header is pushed without any size guard. -/
theorem C8_buffer_growth_counterexample :
    merge [[0, 1, 7]] (shareMergeCap 1 2 0) = some [0, 1] ∧
    shareMaxSize 1 2 0 = 1 ∧ 2 > shareMaxSize 1 2 0 := by
  refine ⟨?_, by decide, by decide⟩
  decide

theorem vipLoop_length_le (bs : List (List Int)) (maxSize C : Nat)
    (hC : maxSize ≤ C) :
    ∀ (fuel : Nat) (st : MergeState), st.result.length ≤ C →
      ∀ out, vipLoop bs maxSize fuel st = some out →
        (∀ r, out = Except.error r → r.length ≤ C) ∧
        (∀ st', out = Except.ok st' → st'.result.length ≤ C) := by
  intro fuel
  induction fuel with
  | zero =>
    intro st h out hout
    simp [vipLoop] at hout
  | succ fuel ih =>
    intro st h out hout
    rw [vipLoop] at hout
    split at hout
    · split at hout
      · exact absurd hout (by simp)
      · split at hout
        · exact absurd hout (by simp)
        · dsimp only at hout
          split at hout
          · split at hout
            · simp only [Option.some.injEq] at hout
              subst hout
              refine ⟨fun r hr => ?_, fun st' hst => by simp at hst⟩
              obtain rfl : st.result = r := by simpa using hr
              exact h
            · rename_i hlim
              refine ih _ ?_ out hout
              simp only [List.length_set, List.length_append,
                List.length_singleton] at hlim ⊢
              omega
          · refine ih _ ?_ out hout
            exact h
    · simp only [Option.some.injEq] at hout
      subst hout
      refine ⟨fun r hr => by simp at hr, fun st' hst => ?_⟩
      obtain rfl : st = st' := by simpa using hst
      exact h

theorem groupInner_length_le (bs : List (List Int))
    (maxSize clauseLength C : Nat) (hC : maxSize ≤ C) :
    ∀ (fuel : Nat) (positions : List Nat) (ncls : List Int) (allcls : Int)
      (result : List Int) (picked : Nat), result.length ≤ C →
      ∀ out, groupInner bs maxSize clauseLength fuel positions ncls allcls
          result picked = some out →
        (∀ r, out = Except.error r → r.length ≤ C) ∧
        (∀ pr : List Nat × List Int, out = Except.ok pr →
          pr.2.length ≤ C) := by
  intro fuel
  induction fuel with
  | zero =>
    intro positions ncls allcls result picked h out hout
    simp [groupInner] at hout
  | succ fuel ih =>
    intro positions ncls allcls result picked h out hout
    rw [groupInner] at hout
    split at hout
    · split at hout
      · simp only [Option.some.injEq] at hout
        subst hout
        refine ⟨fun r hr => ?_, fun pr hpr => by simp at hpr⟩
        obtain rfl : result = r := by simpa using hr
        exact h
      · rename_i hlim
        split at hout
        · exact absurd hout (by simp)
        · dsimp only at hout
          split at hout
          · refine ih _ _ _ _ _ ?_ out hout
            simp only [List.length_append, List.length_take,
              List.length_drop]
            omega
          · exact absurd hout (by simp)
    · simp only [Option.some.injEq] at hout
      subst hout
      refine ⟨fun r hr => by simp at hr, fun pr hpr => ?_⟩
      obtain rfl : (positions, result) = pr := by simpa using hpr
      exact h

theorem groupLoop_length_le (bs : List (List Int)) (maxSize : Nat) :
    ∀ (fuel clauseLength : Nat) (positions : List Nat) (result r : List Int),
      groupLoop bs maxSize fuel clauseLength positions result = some r →
      r.length ≤ max result.length maxSize + fuel := by
  intro fuel
  induction fuel with
  | zero =>
    intro clauseLength positions result r h
    simp [groupLoop] at h
  | succ fuel ih =>
    intro clauseLength positions result r h
    rw [groupLoop] at h
    rcases h' : readCounts bs positions with ⟨positions', ncls, allcls, anyLeft⟩
    rw [h'] at h
    dsimp only at h
    split at h
    · exact absurd h (by simp)
    · rename_i r0 heq
      simp only [Option.some.injEq] at h
      subst h
      have hb := (groupInner_length_le bs maxSize clauseLength
        (max (result.length + 1) maxSize) (le_max_right _ _)
        (allcls.toNat + 1) positions' ncls allcls (result ++ [allcls])
        (bs.length - 1)
        (by simp only [List.length_append, List.length_singleton]
            exact le_max_left _ _)
        _ heq).1 r0 rfl
      omega
    · rename_i positions2 result2 heq
      have hb := (groupInner_length_le bs maxSize clauseLength
        (max (result.length + 1) maxSize) (le_max_right _ _)
        (allcls.toNat + 1) positions' ncls allcls (result ++ [allcls])
        (bs.length - 1)
        (by simp only [List.length_append, List.length_singleton]
            exact le_max_left _ _)
        _ heq).2 (positions2, result2) rfl
      dsimp only at hb
      split at h
      · have hrec := ih (clauseLength + 1) positions2 result2 r h
        omega
      · simp only [Option.some.injEq] at h
        subst h
        omega

/-- **C8** (amended): the cap handed to `merge` by `shareCollectedClauses`
for a buffer that has traversed `d` layers is `S·m^(d+1)`, not `S·m^d`; and
the merged buffer's size is bounded by that cap only up to the unguarded
clause-length-group headers: every terminating merge returns at most
`max 1 cap + totalLen + 2` integers, where `totalLen` is the total length
of the input buffers (each header push can overshoot the cap by one). -/
theorem C8_buffer_growth (bs : List (List Int)) (S m d : Nat) (r : List Int)
    (h : merge bs (shareMergeCap S m d) = some r) :
    shareMergeCap S m d = shareMaxSize S m (d + 1) ∧
    r.length ≤ max 1 (shareMergeCap S m d) +
      (bs.map List.length).sum + 2 := by
  constructor
  · rw [shareMergeCap, shareMaxSize, shareMaxSize, pow_succ, Nat.mul_assoc]
  · rw [merge] at h
    split at h
    · exact absurd h (by simp)
    · rename_i r0 heq
      simp only [Option.some.injEq] at h
      subst h
      have hb := (vipLoop_length_le bs (shareMergeCap S m d)
        (max 1 (shareMergeCap S m d)) (le_max_right _ _)
        ((bs.map List.length).sum + 1) _ (by simp) _ heq).1 r0 rfl
      omega
    · rename_i st heq
      have hb := (vipLoop_length_le bs (shareMergeCap S m d)
        (max 1 (shareMergeCap S m d)) (le_max_right _ _)
        ((bs.map List.length).sum + 1) _ (by simp) _ heq).2 st rfl
      have hg := groupLoop_length_le bs (shareMergeCap S m d)
        ((bs.map List.length).sum + 2) 1 st.positions st.result r h
      omega

theorem C8_buffer_growth_witness :
    merge [[0, 1, 7]] (shareMergeCap 1 2 0) = some [0, 1] ∧
    shareMergeCap 1 2 0 = shareMaxSize 1 2 (0 + 1) ∧
    ([0, 1] : List Int).length ≤ max 1 (shareMergeCap 1 2 0) +
      ([[0, 1, 7]].map List.length).sum + 2 :=
  ⟨by decide, C8_buffer_growth [[0, 1, 7]] 1 2 0 [0, 1] (by decide)⟩

end Mallob
